import Mathlib

/-
  Verification development for the jsproxy reverse proxy.

  Shallow embedding of:
  - src/src/ProxyServer.js   (request handling and target-URL building;
    the first of the two versions in the file, the one with the
    simple-port-forwarding bypass, which is the version the mapping-aware
    CertificateManager is constructed from)
  - src/unnamed/part_001     (CertificateManager; the second of the two
    versions in the file, the one with the rate limiter, the challenges
    map and the wildcard handling)
  - src/index.js             (cluster supervisor)

  Strings that the JavaScript code manipulates byte-wise (request paths,
  hosts) are modelled as `List Char`; the inputs of interest are ASCII so
  JS UTF-16 code-unit semantics and `List Char` semantics agree.
-/

namespace JsProxy

/-- Request paths, hosts and URI fragments, modelled as character lists. -/
abbrev Str := List Char

/-! ## Path rewriting (ProxyServer.buildTargetUrl, first version, lines 245-283) -/

/-- Embeds `targetPath.replace(/\/+/g, '/')`: every maximal run of one or
more slashes is collapsed to a single slash. -/
def collapseSlashes : Str → Str
  | [] => []
  | [c] => [c]
  | c1 :: c2 :: rest =>
    if c1 = '/' ∧ c2 = '/' then collapseSlashes (c2 :: rest)
    else c1 :: collapseSlashes (c2 :: rest)

/-- Embeds the final step of `buildTargetUrl`:
`if (!targetPath.startsWith('/')) targetPath = '/' + targetPath`. -/
def ensureLeadingSlash (l : Str) : Str :=
  if l.head? = some '/' then l else '/' :: l

/-- Embeds JavaScript `s.replace(pat, repl)` with a string pattern: the
first occurrence of `pat` in `s` is replaced by `repl`.  (Replacement
pattern escapes such as a dollar sign in `repl` are not modelled; every
replacement string appearing in the theorems below is free of them.) -/
def replaceFirst (pat repl : Str) : Str → Str
  | [] => if pat.isPrefixOf ([] : Str) then repl else []
  | c :: rest =>
    if pat.isPrefixOf (c :: rest) then repl ++ (c :: rest).drop pat.length
    else c :: replaceFirst pat repl rest

/-- True when the string contains no two consecutive slashes. -/
def noDoubleSlash : Str → Bool
  | [] => true
  | [_] => true
  | c1 :: c2 :: rest => (!(c1 = '/' && c2 = '/')) && noDoubleSlash (c2 :: rest)

/-- Embeds `front_uri.startsWith('/') ? front_uri : '/' + front_uri`. -/
def slashPrefixed (u : Str) : Str :=
  if u.head? = some '/' then u else '/' :: u

/-- One routing rule, as read from the `mappings` table
(src/rust/scripts/bench.sh, embedded DatabaseManager). -/
structure MappingRule where
  front_uri : Str
  back_uri : Str
  back_port : Nat
deriving DecidableEq

/-- Embeds the substitution step of `ProxyServer.buildTargetUrl` (first
version, lines 248-274): branch on non-emptiness of `front_uri`/`back_uri`
exactly as the source does and substitute `back_uri` for the matched
`front_uri`. -/
def rewrittenPath (front back : Str) (requestUrl : Str) : Str :=
  if front ≠ [] then
    let frontUri := slashPrefixed front
    if back ≠ [] then
      let backUri := slashPrefixed back
      if frontUri.isPrefixOf requestUrl then
        replaceFirst frontUri backUri requestUrl
      else if (frontUri.drop 1).isPrefixOf requestUrl then
        replaceFirst (frontUri.drop 1) backUri requestUrl
      else requestUrl
    else
      if frontUri.isPrefixOf requestUrl then
        let r := requestUrl.drop frontUri.length
        if r = [] then ['/'] else r
      else requestUrl
  else if back ≠ [] then
    slashPrefixed back ++ requestUrl
  else requestUrl

/-- Embeds the path portion of `ProxyServer.buildTargetUrl` (first version,
lines 245-283): substitute, then collapse slash runs and force a leading
slash.  The produced upstream URL is this path appended to
`http://localhost:<back_port>`. -/
def buildTargetPath (front back : Str) (requestUrl : Str) : Str :=
  ensureLeadingSlash (collapseSlashes (rewrittenPath front back requestUrl))

/-- Embeds the target selection of `ProxyServer.handleRequest` (first
version, lines 173-189): when both `front_uri` and `back_uri` are empty the
proxy target is `http://localhost:<back_port>` with no path component, so
the raw request path is forwarded unchanged; otherwise the path is the one
`buildTargetUrl` computes. -/
def forwardedPath (m : MappingRule) (requestUrl : Str) : Str :=
  if m.front_uri = [] ∧ m.back_uri = [] then requestUrl
  else buildTargetPath m.front_uri m.back_uri requestUrl

/-! ## Lemmas about the slash collapser -/

theorem collapseSlashes_nil : collapseSlashes [] = [] := rfl

theorem collapseSlashes_single (c : Char) : collapseSlashes [c] = [c] := rfl

theorem collapseSlashes_cons_cons (c1 c2 : Char) (t : Str) :
    collapseSlashes (c1 :: c2 :: t) =
      if c1 = '/' ∧ c2 = '/' then collapseSlashes (c2 :: t)
      else c1 :: collapseSlashes (c2 :: t) := rfl

/-- Collapsing distributes over an append whose right part does not begin
with a slash (no run of slashes crosses the boundary). -/
theorem collapseSlashes_append (s q : Str) (hq : q.head? ≠ some '/') :
    collapseSlashes (s ++ q) = collapseSlashes s ++ collapseSlashes q := by
  induction s with
  | nil => simp [collapseSlashes_nil]
  | cons c t ih =>
    cases t with
    | nil =>
      cases q with
      | nil => simp [collapseSlashes]
      | cons qh qt =>
        have hqh : ¬ qh = '/' := by simpa using hq
        have h1 : ¬ (c = '/' ∧ qh = '/') := fun hc => hqh hc.2
        simp only [List.singleton_append, collapseSlashes_cons_cons, if_neg h1,
          collapseSlashes_single]
    | cons c2 t2 =>
      simp only [List.cons_append, collapseSlashes_cons_cons]
      by_cases h : c = '/' ∧ c2 = '/'
      · rw [if_pos h, if_pos h, show c2 :: (t2 ++ q) = (c2 :: t2) ++ q from rfl, ih]
      · rw [if_neg h, if_neg h, show c2 :: (t2 ++ q) = (c2 :: t2) ++ q from rfl, ih,
          List.cons_append]

/-- A string without consecutive slashes is a fixed point of the collapser. -/
theorem collapseSlashes_eq_of_noDoubleSlash :
    ∀ q : Str, noDoubleSlash q = true → collapseSlashes q = q
  | [], _ => rfl
  | [_], _ => rfl
  | c1 :: c2 :: t, h => by
    rw [noDoubleSlash, Bool.and_eq_true, Bool.not_eq_true', Bool.and_eq_false_iff] at h
    have h1 : ¬ (c1 = '/' ∧ c2 = '/') := by
      rcases h.1 with h' | h' <;> rw [decide_eq_false_iff_not] at h' <;> tauto
    rw [collapseSlashes_cons_cons, if_neg h1,
      collapseSlashes_eq_of_noDoubleSlash (c2 :: t) h.2]

/-- Collapsing never changes the first character. -/
theorem collapseSlashes_head (c : Char) (t : Str) :
    (collapseSlashes (c :: t)).head? = some c := by
  induction t generalizing c with
  | nil => rfl
  | cons c2 t2 ih =>
    by_cases h : c = '/' ∧ c2 = '/'
    · rw [collapseSlashes_cons_cons, if_pos h, ih c2, h.1, h.2]
    · rw [collapseSlashes_cons_cons, if_neg h]; rfl

/-- The collapser's output has no consecutive slashes. -/
theorem noDoubleSlash_collapseSlashes :
    ∀ s : Str, noDoubleSlash (collapseSlashes s) = true
  | [] => rfl
  | [_] => rfl
  | c1 :: c2 :: t => by
    by_cases h : c1 = '/' ∧ c2 = '/'
    · rw [collapseSlashes_cons_cons, if_pos h]
      exact noDoubleSlash_collapseSlashes (c2 :: t)
    · rw [collapseSlashes_cons_cons, if_neg h]
      obtain ⟨r, hr⟩ : ∃ r, collapseSlashes (c2 :: t) = c2 :: r := by
        have hh := collapseSlashes_head c2 t
        cases hcs : collapseSlashes (c2 :: t) with
        | nil => rw [hcs] at hh; simp at hh
        | cons x xs =>
          rw [hcs] at hh
          simp only [List.head?_cons, Option.some.injEq] at hh
          exact ⟨xs, by rw [hh]⟩
      rw [hr, noDoubleSlash, ← hr, Bool.and_eq_true]
      refine ⟨?_, noDoubleSlash_collapseSlashes (c2 :: t)⟩
      simp only [Bool.not_eq_true', Bool.and_eq_false_iff, decide_eq_false_iff_not]
      tauto

/-- When the pattern matches at position zero, the JS-style replacement of
the first occurrence is replacement followed by the unmatched remainder. -/
theorem replaceFirst_of_isPrefixOf (pat repl s : Str) (h : pat.isPrefixOf s = true) :
    replaceFirst pat repl s = repl ++ s.drop pat.length := by
  cases s with
  | nil => rw [replaceFirst, if_pos h]; simp
  | cons c rest => rw [replaceFirst, if_pos h]

/-- The substituted path of `buildTargetUrl` keeps any suffix that follows
the rewritten prefix, in every branch of the source's case analysis. -/
theorem rewrittenPath_split (front back p q : Str)
    (hqne : q ≠ [])
    (hmatch : front ≠ [] → (slashPrefixed front).isPrefixOf p = true) :
    ∃ s : Str, rewrittenPath front back (p ++ q) = s ++ q := by
  by_cases hf : front = []
  · by_cases hb : back = []
    · exact ⟨p, by simp [rewrittenPath, hf, hb]⟩
    · exact ⟨slashPrefixed back ++ p, by simp [rewrittenPath, hf, hb]⟩
  · have hpre : (slashPrefixed front).isPrefixOf p = true := hmatch hf
    have hpfx : slashPrefixed front <+: p := List.isPrefixOf_iff_prefix.mp hpre
    have hlen : (slashPrefixed front).length ≤ p.length := hpfx.length_le
    have hpre2 : (slashPrefixed front).isPrefixOf (p ++ q) = true :=
      List.isPrefixOf_iff_prefix.mpr (hpfx.trans (List.prefix_append p q))
    have hdrop : (p ++ q).drop (slashPrefixed front).length
        = p.drop (slashPrefixed front).length ++ q :=
      List.drop_append_of_le_length hlen
    by_cases hb : back = []
    · refine ⟨p.drop (slashPrefixed front).length, ?_⟩
      rw [rewrittenPath, if_pos hf]
      simp only [hb, ite_false, if_neg (fun h : ([] : Str) ≠ [] => h rfl)]
      rw [if_pos hpre2, hdrop]
      have : p.drop (slashPrefixed front).length ++ q ≠ [] := by
        simp [hqne]
      simp [this]
    · refine ⟨slashPrefixed back ++ p.drop (slashPrefixed front).length, ?_⟩
      rw [rewrittenPath, if_pos hf]
      simp only [if_pos hb]
      rw [if_pos hpre2, replaceFirst_of_isPrefixOf _ _ _ hpre2, hdrop, List.append_assoc]

/-! ## Claims C4 and C5 -/

/-- Claim C4 (confirmed): for every request path, when a mapping's
`front_uri` and `back_uri` are both empty, the target path produced for
forwarding equals the original request path byte-for-byte (the request
handler bypasses the path rewriter and proxies to a bare
`http://localhost:<back_port>`, so the raw request path is forwarded). -/
theorem c4_empty_uris_identity (port : Nat) (u : Str) :
    forwardedPath ⟨[], [], port⟩ u = u := by
  simp [forwardedPath]

/-- Claim C5 counterexample: with `front_uri = "a"`, `back_uri = "b"` and
request path `/a/x?u=http://e`, the rewriter collapses the slash run inside
the query string, producing `/b/x?u=http:/e`: the query string is not
preserved byte-for-byte. -/
theorem c5_counterexample :
    buildTargetPath ("a".toList) ("b".toList) ("/a/x?u=http://e".toList)
      = ("/b/x?u=http:/e".toList)
    ∧ (("?u=http://e".toList).isSuffixOf
        (buildTargetPath ("a".toList) ("b".toList) ("/a/x?u=http://e".toList))) = false := by
  constructor
  · decide
  · decide

/-- Claim C5 (corrected): for every request path of the form `p ++ q` with
`q` a query-or-fragment suffix (first character `?` or `#`) containing no
two consecutive slashes, and with the slash-prefixed `front_uri` (when
non-empty) matching a prefix of the path part `p`, the produced target path
is `r ++ q`: the query string and fragment are preserved byte-for-byte,
the rewritten path part `r` begins with `/` and contains no `//`.  (The
correction: slash collapsing applies to the whole path-plus-query string,
so a query or fragment that itself contains consecutive slashes is NOT
preserved, as the counterexample shows.) -/
theorem c5_amended (front back p q : Str)
    (hq : q.head? = some '?' ∨ q.head? = some '#')
    (hnd : noDoubleSlash q = true)
    (hmatch : front ≠ [] → (slashPrefixed front).isPrefixOf p = true) :
    ∃ r : Str, buildTargetPath front back (p ++ q) = r ++ q ∧
      r.head? = some '/' ∧ noDoubleSlash r = true := by
  have hq' : q.head? ≠ some '/' := by
    rcases hq with h | h <;> rw [h] <;> decide
  have hqne : q ≠ [] := by
    rcases hq with h | h <;> rintro rfl <;> simp at h
  obtain ⟨s, hs⟩ := rewrittenPath_split front back p q hqne hmatch
  rw [buildTargetPath, hs, collapseSlashes_append s q hq',
    collapseSlashes_eq_of_noDoubleSlash q hnd]
  cases hxe : collapseSlashes s with
  | nil =>
    refine ⟨['/'], ?_, rfl, rfl⟩
    rw [List.nil_append, ensureLeadingSlash, if_neg hq']
    rfl
  | cons xh xt =>
    have hndx : noDoubleSlash (xh :: xt) = true :=
      hxe ▸ noDoubleSlash_collapseSlashes s
    by_cases hsl : xh = '/'
    · refine ⟨xh :: xt, ?_, by rw [hsl]; rfl, hndx⟩
      rw [ensureLeadingSlash, if_pos (by simp [hsl])]
    · refine ⟨'/' :: xh :: xt, ?_, rfl, ?_⟩
      · rw [ensureLeadingSlash, if_neg (by simp [hsl])]
        simp
      · rw [noDoubleSlash, Bool.and_eq_true]
        exact ⟨by simp [hsl], hndx⟩

/-- Witness for C5: the amended theorem applied at the spec's own example,
request `/api/v1/users/42?q=1` with `front_uri = "api/v1"`,
`back_uri = "v1"`. -/
theorem c5_amended_witness :
    ∃ r : Str,
      buildTargetPath ("api/v1".toList) ("v1".toList)
        ("/api/v1/users/42".toList ++ "?q=1".toList) = r ++ "?q=1".toList ∧
      r.head? = some '/' ∧ noDoubleSlash r = true :=
  c5_amended ("api/v1".toList) ("v1".toList) ("/api/v1/users/42".toList)
    ("?q=1".toList) (Or.inl rfl) (by decide) (fun _ => by decide)

/-! ## Request handling (ProxyServer.handleRequest, first version, lines 129-198) -/

/-- Embeds JavaScript `s.split(sep)` for a single-character separator:
always returns at least one (possibly empty) piece. -/
def splitOnChar (sep : Char) : Str → List Str
  | [] => [[]]
  | c :: rest =>
    match splitOnChar sep rest with
    | h :: t => if c = sep then [] :: h :: t else (c :: h) :: t
    | [] => [[c]]

/-- Embeds `host.split(':')[0]`: the host with any port suffix stripped.
Note: the source does NOT lowercase the host. -/
def hostDomain (h : Str) : Str := (splitOnChar ':' h).headD []

/-- Embeds `req.url.split('/').pop()`: the last slash-separated segment of
the URL, used as the ACME challenge token. -/
def lastSegment (u : Str) : Str := (splitOnChar '/' u).getLastD []

/-- Modelled from the claim's words, for comparison with `hostDomain`: the
host "lowercased and any port stripped". -/
def claimNormalizedHost (h : Str) : Str := (hostDomain h).map Char.toLower

/-- An HTTP response the proxy produces itself (without proxying). -/
structure HttpResponse where
  status : Nat
  body : Str
deriving DecidableEq

/-- Outcome of `handleRequest`: either a direct response or a proxied
exchange to `http://localhost:<back_port>` with the given forwarded path. -/
inductive HandleResult where
  | respond (r : HttpResponse)
  | proxyTo (back_port : Nat) (path : Str)
deriving DecidableEq

/-- Embeds `ProxyServer.handleRequest` (first version, lines 129-198).
`getChallenge` abstracts `certManager.getChallenge` (in-memory map then
challenge file on disk); `getMapping` abstracts `db.getMapping` (an exact,
case-sensitive SQL match on `domain`).  The TLS-only fire-and-forget
`ensureCertificate(domain, true)` warm-up call at lines 169-171 performs no
response-visible work and is modelled separately by `ensureCertificate`.
An empty Host header value is falsy in JavaScript, so it takes the same
branch as a missing header. -/
def handleRequest (getChallenge : Str → Option Str)
    (getMapping : Str → Str → Option MappingRule)
    (host : Option Str) (url : Str) : HandleResult :=
  if url = "/health".toList then .respond ⟨200, "OK".toList⟩
  else if ("/.well-known/acme-challenge/".toList).isPrefixOf url then
    match getChallenge (lastSegment url) with
    | some ch => .respond ⟨200, ch⟩
    | none => .respond ⟨404, "Challenge not found".toList⟩
  else
    match host with
    | none => .respond ⟨400, "Bad Request: Missing Host header".toList⟩
    | some h =>
      if h = [] then .respond ⟨400, "Bad Request: Missing Host header".toList⟩
      else
        match getMapping (hostDomain h) url with
        | none => .respond ⟨404, "Not Found".toList⟩
        | some m =>
          if m.front_uri = [] ∧ m.back_uri = [] then .proxyTo m.back_port url
          else .proxyTo m.back_port (buildTargetPath m.front_uri m.back_uri url)

/-! ## Claim C6 -/

/-- Claim C6 counterexample: the code strips the port but does NOT
lowercase the host.  With a mapping table holding exactly `example.com`,
a request with Host `EXAMPLE.com` is answered `404 Not Found`, while the
claimed lowercased resolution would have found the mapping. -/
theorem c6_counterexample :
    hostDomain ("EXAMPLE.com:8080".toList) = "EXAMPLE.com".toList
    ∧ claimNormalizedHost ("EXAMPLE.com:8080".toList) = "example.com".toList
    ∧ hostDomain ("EXAMPLE.com:8080".toList)
        ≠ claimNormalizedHost ("EXAMPLE.com:8080".toList)
    ∧ handleRequest (fun _ => none)
        (fun d _ => if d = "example.com".toList then some ⟨[], [], 3001⟩ else none)
        (some ("EXAMPLE.com".toList)) ("/x".toList)
      = .respond ⟨404, "Not Found".toList⟩
    ∧ (fun (d : Str) (_ : Str) =>
        if d = "example.com".toList then some (⟨[], [], 3001⟩ : MappingRule) else none)
        (claimNormalizedHost ("EXAMPLE.com".toList)) ("/x".toList)
      = some ⟨[], [], 3001⟩ := by
  refine ⟨by decide, by decide, by decide, by decide, by decide⟩

/-- Claim C6 (corrected): for every request that is not a `/health` or
ACME-challenge short-circuit, a missing (or empty) Host header is answered
`400` with body `Bad Request: Missing Host header`; otherwise any port is
stripped from the host — but the host is NOT lowercased — before route
resolution, and when no mapping resolves for the port-stripped host the
response is `404` with body `Not Found`. -/
theorem c6_amended (gc : Str → Option Str) (gm : Str → Str → Option MappingRule)
    (host : Option Str) (url : Str)
    (hh : url ≠ "/health".toList)
    (hacme : ("/.well-known/acme-challenge/".toList).isPrefixOf url = false) :
    ((host = none ∨ host = some []) →
      handleRequest gc gm host url
        = .respond ⟨400, "Bad Request: Missing Host header".toList⟩)
    ∧ (∀ h : Str, host = some h → h ≠ [] → gm (hostDomain h) url = none →
        handleRequest gc gm host url = .respond ⟨404, "Not Found".toList⟩) := by
  unfold handleRequest
  rw [if_neg hh, hacme]
  simp only [Bool.false_eq_true, if_false]
  constructor
  · rintro (rfl | rfl)
    · rfl
    · simp
  · rintro h rfl hne hnone
    show (if h = [] then _ else _) = _
    rw [if_neg hne, hnone]

/-- Witness for C6: the amended theorem applied to a missing-host request
and to an unmapped host. -/
theorem c6_amended_witness :
    handleRequest (fun _ => none) (fun _ _ => none) none ("/x".toList)
      = .respond ⟨400, "Bad Request: Missing Host header".toList⟩
    ∧ handleRequest (fun _ => none) (fun _ _ => none)
        (some ("a.com".toList)) ("/x".toList)
      = .respond ⟨404, "Not Found".toList⟩ := by
  refine ⟨(c6_amended (fun _ => none) (fun _ _ => none) none ("/x".toList)
      (by decide) (by decide)).1 (Or.inl rfl), ?_⟩
  exact (c6_amended (fun _ => none) (fun _ _ => none) (some ("a.com".toList))
      ("/x".toList) (by decide) (by decide)).2 ("a.com".toList) rfl (by decide) rfl

/-! ## Certificate manager (src/unnamed/part_001, second version, lines 368-1053)

A parsed certificate is modelled by the fields the manager inspects:
validity dates (milliseconds since epoch, as JavaScript `Date` numbers),
whether the subject DN equals the issuer DN (the sorted-attribute-string
comparison of `isRealCertificate`), the subject organization, and the
common name.  A `serial` tag distinguishes independently generated
certificates.  Key material is an opaque tag. -/

structure Cert where
  commonName : Str
  notBefore : Int
  notAfter : Int
  selfIssued : Bool
  org : Str
  serial : Nat
deriving DecidableEq

/-- A cert/key pair as stored on disk and in the in-memory cache. -/
structure CertKey where
  cert : Cert
  key : Nat
deriving DecidableEq

def thirtyDaysMs : Int := 30 * 24 * 60 * 60 * 1000

def fiveMinutesMs : Int := 5 * 60 * 1000

/-- One year in milliseconds; `setFullYear(notBefore.getFullYear() + 1)` is
modelled as adding 365 days (leap-calendar detail not modelled; no theorem
depends on the exact length, only on it exceeding 30 days). -/
def oneYearMs : Int := 365 * 24 * 60 * 60 * 1000

/-- Embeds `isCertificateValid` (lines 526-554): reject when now is outside
`[notBefore, notAfter]`, then reject when the certificate expires within
the next 30 days; otherwise accept.  (The parse-failure catch, which also
returns false, is outside the model: every modelled certificate parses.) -/
def isCertificateValid (now : Int) (c : Cert) : Bool :=
  if now < c.notBefore || now > c.notAfter then false
  else if c.notAfter < now + thirtyDaysMs then false
  else true

/-- Embeds `isRealCertificate` (lines 556-588): self-signed when subject DN
equals issuer DN; additionally the sentinel organization `Test` marks the
manager's own self-signed material. -/
def isRealCertificate (c : Cert) : Bool :=
  if c.selfIssued then false
  else if c.org = "Test".toList then false
  else true

/-- Embeds `generateSelfSignedCertificate` (lines 609-713): subject and
issuer identical, organization `Test`, valid from now for one year. -/
def mkSelfSignedCert (cn : Str) (now : Int) (serial : Nat) : Cert :=
  ⟨cn, now, now + oneYearMs, true, "Test".toList, serial⟩

def mkSelfSignedCertKey (cn : Str) (now : Int) (serial : Nat) : CertKey :=
  ⟨mkSelfSignedCert cn now serial, serial⟩

/-! Association lists embed JavaScript `Map`s (`set` replaces in place,
`delete` removes the unique binding; a `Map` never holds duplicate keys). -/

def alookup {κ α : Type} [DecidableEq κ] (k : κ) : List (κ × α) → Option α
  | [] => none
  | (k2, v) :: t => if k2 = k then some v else alookup k t

def aset {κ α : Type} [DecidableEq κ] (k : κ) (v : α) : List (κ × α) → List (κ × α)
  | [] => [(k, v)]
  | (k2, v2) :: t => if k2 = k then (k, v) :: t else (k2, v2) :: aset k v t

def aerase {κ α : Type} [DecidableEq κ] (k : κ) : List (κ × α) → List (κ × α)
  | [] => []
  | (k2, v2) :: t => if k2 = k then t else (k2, v2) :: aerase k t

theorem alookup_aset_self {κ α : Type} [DecidableEq κ] (k : κ) (v : α) :
    ∀ l : List (κ × α), alookup k (aset k v l) = some v
  | [] => by simp [aset, alookup]
  | (k2, v2) :: t => by
    by_cases h : k2 = k
    · rw [aset, if_pos h, alookup, if_pos rfl]
    · rw [aset, if_neg h, alookup, if_neg h, alookup_aset_self k v t]

theorem alookup_aset_ne {κ α : Type} [DecidableEq κ] (k k2 : κ) (v : α)
    (hne : k2 ≠ k) : ∀ l : List (κ × α), alookup k2 (aset k v l) = alookup k2 l
  | [] => by
    have h0 : ¬ k = k2 := fun h => hne h.symm
    simp [aset, alookup, h0]
  | (k3, v3) :: t => by
    by_cases h : k3 = k
    · subst h
      rw [aset, if_pos rfl, alookup, if_neg (fun hh => hne hh.symm), alookup,
        if_neg (fun hh => hne hh.symm)]
    · rw [aset, if_neg h, alookup, alookup]
      by_cases h2 : k3 = k2
      · rw [if_pos h2, if_pos h2]
      · rw [if_neg h2, if_neg h2, alookup_aset_ne k k2 v hne t]

theorem alookup_aerase_ne {κ α : Type} [DecidableEq κ] (k k2 : κ)
    (hne : k2 ≠ k) : ∀ l : List (κ × α), alookup k2 (aerase k l) = alookup k2 l
  | [] => rfl
  | (k3, v3) :: t => by
    by_cases h : k3 = k
    · subst h
      rw [aerase, if_pos rfl, alookup, if_neg (fun hh => hne hh.symm)]
    · rw [aerase, if_neg h, alookup, alookup]
      by_cases h2 : k3 = k2
      · rw [if_pos h2, if_pos h2]
      · rw [if_neg h2, if_neg h2, alookup_aerase_ne k k2 hne t]

theorem alookup_eq_none_of_not_mem {κ α : Type} [DecidableEq κ] (k : κ) :
    ∀ l : List (κ × α), k ∉ l.map Prod.fst → alookup k l = none
  | [], _ => rfl
  | (k2, v2) :: t, h => by
    have h2 : k2 ≠ k := by
      intro hh; exact h (by simp [hh])
    rw [alookup, if_neg h2]
    exact alookup_eq_none_of_not_mem k t (fun hh => h (by simp [hh]))

theorem alookup_aerase_self {κ α : Type} [DecidableEq κ] (k : κ) :
    ∀ l : List (κ × α), (l.map Prod.fst).Nodup → alookup k (aerase k l) = none
  | [], _ => rfl
  | (k2, v2) :: t, h => by
    rw [List.map_cons, List.nodup_cons] at h
    by_cases h2 : k2 = k
    · rw [aerase, if_pos h2]
      exact alookup_eq_none_of_not_mem k t (h2 ▸ h.1)
    · rw [aerase, if_neg h2, alookup, if_neg h2]
      exact alookup_aerase_self k t h.2

/-- The per-worker mutable state of `CertificateManager`: the certificate
cache, the wildcard cache, the single-flight `processingDomains` set, the
rate-limiter maps, and a counter supplying fresh serials to generated
certificates. -/
structure CMState where
  certificates : List (Str × CertKey)
  wildcardCerts : List (Str × CertKey)
  processingDomains : List Str
  lastCertRequest : List (Str × Int)
  certRequestCount : List (Str × Nat)
  nextSerial : Nat
deriving DecidableEq

def bumpSerial (s : CMState) : CMState := { s with nextSerial := s.nextSerial + 1 }

/-- The filesystem the manager reads: `<domain>.crt`/`.key` pairs and
`wildcard.<main>.crt`/`.key` pairs under the certs directory.  `none`
models any read failure (missing or unreadable file). -/
structure CertFS where
  hostCert : Str → Option CertKey
  wildcardCert : Str → Option CertKey

/-- The ACME environment: whether `acmeClient` is non-null, and the outcome
of `acmeClient.auto` for a domain at a time (`none` models a thrown
error). -/
structure AcmeEnv where
  available : Bool
  issue : Str → Int → Option CertKey

/-- The observable outcome of one `ensureCertificate` call: the returned
pair, the state left behind, whether `acmeClient.auto` was invoked, whether
`generateSelfSignedCertificate` ran, and the `<domain>.crt`/`.key` writes
performed. -/
structure EnsureOut where
  result : CertKey
  state : CMState
  acmeAttempted : Bool
  selfSignedGenerated : Bool
  diskWrites : List (Str × CertKey)
deriving DecidableEq

/-! ### getMainDomain / isSubdomain (lines 849-881) -/

/-- JavaScript regex `\w`: ASCII letters, digits and underscore. -/
def isWordChar (c : Char) : Bool := c.isAlphanum || c = '_'

def compoundTldNames : List Str :=
  ["co", "ac", "gov", "org", "net", "edu", "mil"].map String.toList

/-- Whether the compound-TLD regex matches at this position, anchored
to the end of the string. -/
def matchCompoundAt : Str → Bool
  | '.' :: rest =>
    compoundTldNames.any (fun t =>
      t.isPrefixOf rest &&
      (match rest.drop t.length with
       | '.' :: w => (!w.isEmpty) && w.all isWordChar
       | _ => false))
  | _ => false

/-- Whether the simple-TLD regex matches at this position, anchored to the
end of the string. -/
def matchSimpleAt : Str → Bool
  | '.' :: w => (!w.isEmpty) && w.all isWordChar
  | _ => false

/-- The suffix at the leftmost position where the predicate matches
(JavaScript `match` returns the leftmost match of each anchored pattern). -/
def leftmostTail (p : Str → Bool) : Str → Option Str
  | [] => if p [] then some [] else none
  | l@(_ :: rest) => if p l then some l else leftmostTail p rest

/-- Embeds `parts.slice(-2).join('.')`-style joining. -/
def joinDots : List Str → Str
  | [] => []
  | [x] => x
  | x :: y :: t => x ++ '.' :: joinDots (y :: t)

/-- Recover `domainParts[domainParts.length - 1] + tld` from the matched
TLD suffix. -/
def mainFromTld (cs tld : Str) : Str :=
  let withoutTld := cs.take (cs.length - tld.length)
  let domainParts := splitOnChar '.' withoutTld
  (domainParts.getLastD []) ++ tld

/-- Embeds `getMainDomain` (lines 849-876): two or fewer dot-separated
parts are already a main domain; otherwise the compound-TLD pattern, then
the simple-TLD pattern, then a last-two-parts fallback. -/
def getMainDomain (domain : Str) : Str :=
  let parts := splitOnChar '.' domain
  if parts.length ≤ 2 then domain
  else
    match leftmostTail matchCompoundAt domain with
    | some tld => mainFromTld domain tld
    | none =>
      match leftmostTail matchSimpleAt domain with
      | some tld => mainFromTld domain tld
      | none => joinDots (parts.drop (parts.length - 2))

/-- Embeds `isSubdomain` (lines 878-881). -/
def isSubdomain (domain : Str) : Bool :=
  let mainDomain := getMainDomain domain
  (!(domain = mainDomain : Bool)) && (!(domain = "www.".toList ++ mainDomain : Bool))

/-! ### ensureCertificate (lines 739-847) and its callees -/

/-- Embeds `getWildcardCertificate` (lines 883-910): the wildcard memory
cache is trusted without a validity check; a disk wildcard is
validity-checked and then cached. -/
def getWildcardCertificate (fs : CertFS) (s : CMState) (mainDomain : Str)
    (now : Int) : Option CertKey × CMState :=
  match alookup mainDomain s.wildcardCerts with
  | some w => (some w, s)
  | none =>
    match fs.wildcardCert mainDomain with
    | some wk =>
      if isCertificateValid now wk.cert then
        (some wk, { s with wildcardCerts := aset mainDomain wk s.wildcardCerts })
      else (none, s)
    | none => (none, s)

/-- Embeds `obtainCertificate` (lines 919-978): no ACME client means an
immediate self-signed fallback; otherwise run `acmeClient.auto`, persist
`<domain>.crt`/`.key` on success (also populating the wildcard cache when
the file name carries the `wildcard.` prefix), and fall back to a fresh
self-signed certificate on failure. -/
def obtainCertificate (acme : AcmeEnv) (domain : Str) (now : Int)
    (s : CMState) : EnsureOut :=
  if !acme.available then
    ⟨mkSelfSignedCertKey domain now s.nextSerial, bumpSerial s, false, true, []⟩
  else
    match acme.issue domain now with
    | some ck =>
      let wname := replaceFirst (".crt".toList) []
        (replaceFirst ("wildcard.".toList) [] domain)
      let s1 :=
        if ("wildcard.".toList).isPrefixOf domain then
          { s with wildcardCerts := aset wname ck s.wildcardCerts }
        else s
      ⟨ck, s1, true, false, [(domain, ck)]⟩
    | none =>
      ⟨mkSelfSignedCertKey domain now s.nextSerial, bumpSerial s, true, true, []⟩

/-- Embeds the tail of `ensureCertificate` (lines 806-846): the
not-validated self-signed return, the 5-minute rate limit, the 5-attempt
ceiling, the single-flight `processingDomains` check, and the issuance
path.  `waitCache` is the value `this.certificates.get(domain)` observed
after `waitForCertificateProcessing` returns (the cache as left by whatever
the in-flight task did during the up-to-30-second wait). -/
def ensureIssueOrFallback (acme : AcmeEnv) (s : CMState) (domain : Str)
    (now : Int) (waitCache : Option CertKey) : EnsureOut :=
  let lastRequest := (alookup domain s.lastCertRequest).getD 0
  if now - lastRequest < fiveMinutesMs then
    ⟨mkSelfSignedCertKey domain now s.nextSerial, bumpSerial s, false, true, []⟩
  else
    let requestCount := (alookup domain s.certRequestCount).getD 0
    if 5 ≤ requestCount then
      ⟨mkSelfSignedCertKey domain now s.nextSerial, bumpSerial s, false, true, []⟩
    else if s.processingDomains.contains domain then
      match waitCache with
      | some c => ⟨c, s, false, false, []⟩
      | none =>
        ⟨mkSelfSignedCertKey domain now s.nextSerial, bumpSerial s, false, true, []⟩
    else
      let s1 := { s with
        processingDomains := domain :: s.processingDomains,
        lastCertRequest := aset domain now s.lastCertRequest,
        certRequestCount := aset domain (requestCount + 1) s.certRequestCount }
      let o := obtainCertificate acme domain now s1
      ⟨o.result,
        { o.state with
          certificates := aset domain o.result o.state.certificates,
          processingDomains := o.state.processingDomains.erase domain },
        o.acmeAttempted, o.selfSignedGenerated, o.diskWrites⟩

/-- Embeds `ensureCertificate` lines 806-811: unauthorized domains get a
fresh self-signed certificate that is never installed in the cache;
authorized domains continue to the rate-limited issuance path. -/
def ensureNotValidatedOrIssue (acme : AcmeEnv) (s : CMState) (domain : Str)
    (isDomainValidated : Bool) (now : Int) (waitCache : Option CertKey) : EnsureOut :=
  if !isDomainValidated then
    ⟨mkSelfSignedCertKey domain now s.nextSerial, bumpSerial s, false, true, []⟩
  else ensureIssueOrFallback acme s domain now waitCache

/-- Embeds `ensureCertificate` lines 787-805: the subdomain/wildcard step.
The `db.getMapping(mainDomain, '/')` probe after a wildcard miss only logs
and is omitted. -/
def ensureAfterDiskCheck (fs : CertFS) (acme : AcmeEnv) (s : CMState)
    (domain : Str) (isDomainValidated : Bool) (now : Int)
    (waitCache : Option CertKey) : EnsureOut :=
  if isSubdomain domain && isDomainValidated then
    match getWildcardCertificate fs s (getMainDomain domain) now with
    | (some wk, s1) =>
      ⟨wk, { s1 with certificates := aset domain wk s1.certificates },
        false, false, []⟩
    | (none, s1) =>
      ensureNotValidatedOrIssue acme s1 domain isDomainValidated now waitCache
  else ensureNotValidatedOrIssue acme s domain isDomainValidated now waitCache

/-- Embeds `ensureCertificate` (lines 739-847).  The disk is consulted
first: a valid real disk pair wins outright; a valid self-signed disk pair
loses only to a cached real pair; an invalid disk pair falls through
WITHOUT consulting the cache.  When the disk read fails, a valid cached
pair is returned, an invalid cached pair is evicted.  `fs.hostCert` is
`none` whenever reading `<domain>.crt` or `<domain>.key` fails. -/
def ensureCertificate (fs : CertFS) (acme : AcmeEnv) (s : CMState)
    (domain : Str) (isDomainValidated : Bool) (now : Int)
    (waitCache : Option CertKey) : EnsureOut :=
  match fs.hostCert domain with
  | some dk =>
    if isCertificateValid now dk.cert then
      if isRealCertificate dk.cert then
        ⟨dk, { s with certificates := aset domain dk s.certificates },
          false, false, []⟩
      else
        match alookup domain s.certificates with
        | some cached =>
          if isRealCertificate cached.cert then ⟨cached, s, false, false, []⟩
          else
            ⟨dk, { s with certificates := aset domain dk s.certificates },
              false, false, []⟩
        | none =>
          ⟨dk, { s with certificates := aset domain dk s.certificates },
            false, false, []⟩
    else ensureAfterDiskCheck fs acme s domain isDomainValidated now waitCache
  | none =>
    match alookup domain s.certificates with
    | some cached =>
      if isCertificateValid now cached.cert then ⟨cached, s, false, false, []⟩
      else
        ensureAfterDiskCheck fs acme
          { s with certificates := aerase domain s.certificates }
          domain isDomainValidated now waitCache
    | none => ensureAfterDiskCheck fs acme s domain isDomainValidated now waitCache

/-- Embeds `getSNICallback` (lines 715-737): per handshake, resolve whether
the database has a mapping for the bare domain at path `/`, call
`ensureCertificate(domain, isDomainValidated)`, and build the secure
context from the returned pair (the context simply carries the pair). -/
def sniResolve (hasMapping : Str → Bool) (fs : CertFS) (acme : AcmeEnv)
    (s : CMState) (domain : Str) (now : Int)
    (waitCache : Option CertKey) : EnsureOut :=
  ensureCertificate fs acme s domain (hasMapping domain) now waitCache

/-- The two default-certificate files under the certs directory. -/
structure DefaultCertFS where
  defaultCrt : Option Cert
  defaultKey : Option Nat
deriving DecidableEq

/-- Embeds `getDefaultCertificate` (lines 590-607): return the persisted
`default.crt`/`default.key` pair when both read; otherwise generate a
self-signed `localhost` certificate, persist both files and return it.
The third component reports whether generation ran. -/
def getDefaultCertificate (fs : DefaultCertFS) (now : Int) (serial : Nat) :
    CertKey × DefaultCertFS × Bool :=
  match fs.defaultCrt, fs.defaultKey with
  | some c, some k => (⟨c, k⟩, fs, false)
  | _, _ =>
    let ck := mkSelfSignedCertKey ("localhost".toList) now serial
    (ck, ⟨some ck.cert, some ck.key⟩, true)

/-- Overlay the `<domain>.crt`/`.key` writes of a call onto the
filesystem, for sequential composition of calls. -/
def applyDiskWrites (fs : CertFS) (ws : List (Str × CertKey)) : CertFS :=
  { fs with hostCert := fun d => (alookup d ws).elim (fs.hostCert d) some }

/-- Two sequential authorized `ensure` calls for the same domain, the
second observing the state and disk writes the first left behind. -/
def ensureTwice (fs : CertFS) (acme : AcmeEnv) (s : CMState) (domain : Str)
    (t0 t1 : Int) : EnsureOut × EnsureOut :=
  let o1 := ensureCertificate fs acme s domain true t0 none
  let o2 := ensureCertificate (applyDiskWrites fs o1.diskWrites) acme o1.state
    domain true t1 none
  (o1, o2)

/-! ## Claim C7: the validity window -/

/-- Claim C7 counterexample: at `now = notAfter - 30 days` exactly, the
code classifies the certificate as valid, while the claimed strict bound
`now < notAfter - 30 days` classifies it invalid. -/
theorem c7_counterexample :
    isCertificateValid 0 ⟨"x".toList, 0, thirtyDaysMs, true, "Test".toList, 0⟩ = true
    ∧ ¬ ((0 : Int) <
        (⟨"x".toList, 0, thirtyDaysMs, true, "Test".toList, 0⟩ : Cert).notAfter
          - thirtyDaysMs) := by
  constructor
  · decide
  · decide

/-- Claim C7 (corrected): the validity classification returns true iff
`notBefore ≤ now ∧ now ≤ notAfter - 30 days` — the renewal bound is
non-strict, so a certificate expiring in exactly 30 days is still valid;
certificates expiring in strictly less than 30 days are invalid. -/
theorem c7_amended (now : Int) (c : Cert) :
    isCertificateValid now c = true ↔
      (c.notBefore ≤ now ∧ now ≤ c.notAfter - thirtyDaysMs) := by
  rw [isCertificateValid]
  unfold thirtyDaysMs
  split_ifs with h1 h2
  · simp only [Bool.or_eq_true, decide_eq_true_eq] at h1
    constructor
    · intro hf; exact absurd hf (by simp)
    · intro hcc; omega
  · simp only [Bool.or_eq_true, decide_eq_true_eq] at h1
    push_neg at h1
    constructor
    · intro hf; exact absurd hf (by simp)
    · intro hcc; omega
  · simp only [Bool.or_eq_true, decide_eq_true_eq] at h1
    push_neg at h1
    constructor
    · intro _; omega
    · intro _; rfl

/-- Witness for C7: the amended equivalence applied at a certificate whose
`notAfter` lies exactly 30 days past `now`. -/
theorem c7_amended_witness :
    isCertificateValid 1000
      ⟨"x".toList, 0, 1000 + thirtyDaysMs, true, "Test".toList, 0⟩ = true :=
  (c7_amended 1000 ⟨"x".toList, 0, 1000 + thirtyDaysMs, true, "Test".toList, 0⟩).mpr
    (by constructor <;> decide)

/-! ## Claim C10: the default certificate -/

/-- Claim C10 (confirmed): `getDefaultCertificate` is idempotent through
the filesystem.  A first call with either default file missing generates a
self-signed `localhost` pair and persists both files; a call that finds
both files returns exactly the persisted pair without generating; hence
the call on the state the first call left behind returns the first call's
pair and generates nothing. -/
theorem c10_default_cert (fs : DefaultCertFS) (now now2 : Int) (serial serial2 : Nat)
    (h : fs.defaultCrt = none ∨ fs.defaultKey = none) :
    ((getDefaultCertificate fs now serial).2.2 = true
      ∧ (getDefaultCertificate fs now serial).1
          = mkSelfSignedCertKey ("localhost".toList) now serial
      ∧ (getDefaultCertificate fs now serial).2.1
          = ⟨some (mkSelfSignedCert ("localhost".toList) now serial), some serial⟩
      ∧ getDefaultCertificate (getDefaultCertificate fs now serial).2.1 now2 serial2
          = ((getDefaultCertificate fs now serial).1,
             (getDefaultCertificate fs now serial).2.1, false))
    ∧ (∀ (fs2 : DefaultCertFS) (c : Cert) (k : Nat),
        fs2.defaultCrt = some c → fs2.defaultKey = some k →
        getDefaultCertificate fs2 now2 serial2 = (⟨c, k⟩, fs2, false)) := by
  obtain ⟨fc, fk⟩ := fs
  have hmain : getDefaultCertificate ⟨fc, fk⟩ now serial
      = (mkSelfSignedCertKey ("localhost".toList) now serial,
         ⟨some (mkSelfSignedCert ("localhost".toList) now serial), some serial⟩, true) := by
    rcases h with h | h
    · cases h; rfl
    · cases h; cases fc <;> rfl
  refine ⟨⟨by rw [hmain], by rw [hmain], by rw [hmain], by rw [hmain]; rfl⟩, ?_⟩
  rintro ⟨fc2, fk2⟩ c k h1 h2
  cases h1; cases h2; rfl

/-- Witness for C10: the theorem applied to an initially empty certs
directory. -/
theorem c10_default_cert_witness :
    ((getDefaultCertificate ⟨none, none⟩ 0 0).2.2 = true
      ∧ (getDefaultCertificate ⟨none, none⟩ 0 0).1
          = mkSelfSignedCertKey ("localhost".toList) 0 0
      ∧ (getDefaultCertificate ⟨none, none⟩ 0 0).2.1
          = ⟨some (mkSelfSignedCert ("localhost".toList) 0 0), some 0⟩
      ∧ getDefaultCertificate (getDefaultCertificate ⟨none, none⟩ 0 0).2.1 5 7
          = ((getDefaultCertificate ⟨none, none⟩ 0 0).1,
             (getDefaultCertificate ⟨none, none⟩ 0 0).2.1, false))
    ∧ (∀ (fs2 : DefaultCertFS) (c : Cert) (k : Nat),
        fs2.defaultCrt = some c → fs2.defaultKey = some k →
        getDefaultCertificate fs2 5 7 = (⟨c, k⟩, fs2, false)) :=
  c10_default_cert ⟨none, none⟩ 0 5 0 7 (Or.inl rfl)

/-! ## The unauthorized path (claims C2 and C9) -/

/-- With `isDomainValidated = false` the subdomain/wildcard step is skipped
and a fresh self-signed certificate is returned without touching the
certificate cache. -/
theorem ensureAfterDiskCheck_unauthorized (fs : CertFS) (acme : AcmeEnv)
    (s : CMState) (d : Str) (now : Int) (w : Option CertKey) :
    ensureAfterDiskCheck fs acme s d false now w
      = ⟨mkSelfSignedCertKey d now s.nextSerial, bumpSerial s, false, true, []⟩ := by
  rw [ensureAfterDiskCheck, ensureNotValidatedOrIssue]
  simp

/-- An unauthorized `ensure` call with no valid certificate on disk or in
the cache returns a fresh self-signed certificate without contacting ACME;
the cache is untouched, except that a stale cached entry is evicted when
the disk read fails. -/
theorem ensure_unauthorized (fs : CertFS) (acme : AcmeEnv) (s : CMState)
    (d : Str) (now : Int) (w : Option CertKey)
    (hd : ∀ dk, fs.hostCert d = some dk → isCertificateValid now dk.cert = false)
    (hc : ∀ ck, alookup d s.certificates = some ck → isCertificateValid now ck.cert = false) :
    ensureCertificate fs acme s d false now w
      = ⟨mkSelfSignedCertKey d now s.nextSerial, bumpSerial s, false, true, []⟩
    ∨ (fs.hostCert d = none ∧ (∃ ck, alookup d s.certificates = some ck) ∧
       ensureCertificate fs acme s d false now w
        = ⟨mkSelfSignedCertKey d now s.nextSerial,
           bumpSerial { s with certificates := aerase d s.certificates },
           false, true, []⟩) := by
  unfold ensureCertificate
  cases hfs : fs.hostCert d with
  | some dk =>
    left
    dsimp only
    simp only [hd dk hfs, Bool.false_eq_true, if_false]
    exact ensureAfterDiskCheck_unauthorized fs acme s d now w
  | none =>
    cases hcc : alookup d s.certificates with
    | some ck =>
      right
      refine ⟨rfl, ⟨ck, rfl⟩, ?_⟩
      dsimp only
      simp only [hc ck hcc, Bool.false_eq_true, if_false]
      exact ensureAfterDiskCheck_unauthorized fs acme _ d now w
    | none =>
      left
      dsimp only
      exact ensureAfterDiskCheck_unauthorized fs acme s d now w

/-- Claim C2 (confirmed): for a host with no mapping (so the SNI callback
passes `isDomainValidated = false`) and no valid certificate on disk or in
the cache, the resolution never contacts ACME and returns a freshly
generated self-signed certificate for the host, so the handshake completes
with that certificate's secure context. -/
theorem c2_unauthorized_selfsigned (hasMapping : Str → Bool) (fs : CertFS)
    (acme : AcmeEnv) (s : CMState) (d : Str) (now : Int) (w : Option CertKey)
    (hmap : hasMapping d = false)
    (hd : ∀ dk, fs.hostCert d = some dk → isCertificateValid now dk.cert = false)
    (hc : ∀ ck, alookup d s.certificates = some ck → isCertificateValid now ck.cert = false) :
    (sniResolve hasMapping fs acme s d now w).acmeAttempted = false
    ∧ (sniResolve hasMapping fs acme s d now w).result
        = mkSelfSignedCertKey d now s.nextSerial
    ∧ (sniResolve hasMapping fs acme s d now w).selfSignedGenerated = true := by
  have h := ensure_unauthorized fs acme s d now w hd hc
  unfold sniResolve
  rw [hmap]
  rcases h with h | ⟨_, _, h⟩ <;> rw [h] <;> exact ⟨rfl, rfl, rfl⟩

/-- Witness for C2: an unmapped host against an empty cache and disk. -/
theorem c2_witness :
    (sniResolve (fun _ => false) ⟨fun _ => none, fun _ => none⟩
        ⟨true, fun _ _ => none⟩ ⟨[], [], [], [], [], 0⟩
        ("h.com".toList) 0 none).acmeAttempted = false
    ∧ (sniResolve (fun _ => false) ⟨fun _ => none, fun _ => none⟩
        ⟨true, fun _ _ => none⟩ ⟨[], [], [], [], [], 0⟩
        ("h.com".toList) 0 none).result
        = mkSelfSignedCertKey ("h.com".toList) 0 0
    ∧ (sniResolve (fun _ => false) ⟨fun _ => none, fun _ => none⟩
        ⟨true, fun _ _ => none⟩ ⟨[], [], [], [], [], 0⟩
        ("h.com".toList) 0 none).selfSignedGenerated = true := by
  refine c2_unauthorized_selfsigned (fun _ => false) ⟨fun _ => none, fun _ => none⟩
    ⟨true, fun _ _ => none⟩ ⟨[], [], [], [], [], 0⟩ ("h.com".toList) 0 none rfl ?_ ?_
  · intro dk hdk; exact Option.noConfusion hdk
  · intro ck hck; exact Option.noConfusion hck

/-- A stale (expired) cached pair, used by the C9 theorems. -/
def sampleStaleCertKey : CertKey := ⟨⟨"h.com".toList, 0, 1, true, "Test".toList, 7⟩, 7⟩

/-- Claim C9 counterexample: when the disk read fails and the cache holds a
stale (invalid) entry for the host, the unauthorized path EVICTS that
entry — the in-memory certificate cache is not left unchanged. -/
theorem c9_counterexample :
    (ensureCertificate ⟨fun _ => none, fun _ => none⟩ ⟨true, fun _ _ => none⟩
        ⟨[("h.com".toList, sampleStaleCertKey)], [], [], [], [], 0⟩
        ("h.com".toList) false 1000000000 none).state.certificates = []
    ∧ ([("h.com".toList, sampleStaleCertKey)] : List (Str × CertKey)) ≠ [] := by
  constructor
  · decide
  · decide

/-- Claim C9 (corrected): on the unauthorized path with no valid disk or
cache certificate, the freshly generated self-signed certificate is
returned but never installed in the cache; the cache is left unchanged
EXCEPT that a stale cached entry for the host is evicted when the disk
read fails; consequently every later such call generates a new self-signed
certificate (with a fresh serial). -/
theorem c9_amended (fs : CertFS) (acme : AcmeEnv) (s : CMState) (d : Str)
    (now : Int) (w : Option CertKey)
    (hd : ∀ dk, fs.hostCert d = some dk → isCertificateValid now dk.cert = false)
    (hc : ∀ ck, alookup d s.certificates = some ck → isCertificateValid now ck.cert = false)
    (hnodup : (s.certificates.map Prod.fst).Nodup) :
    ((ensureCertificate fs acme s d false now w).result
        = mkSelfSignedCertKey d now s.nextSerial
      ∧ (ensureCertificate fs acme s d false now w).acmeAttempted = false
      ∧ (ensureCertificate fs acme s d false now w).selfSignedGenerated = true)
    ∧ ((ensureCertificate fs acme s d false now w).state.certificates = s.certificates
      ∨ (ensureCertificate fs acme s d false now w).state.certificates
          = aerase d s.certificates)
    ∧ (∀ (now2 : Int) (w2 : Option CertKey),
        (∀ dk, fs.hostCert d = some dk → isCertificateValid now2 dk.cert = false) →
        (∀ ck, alookup d s.certificates = some ck →
          isCertificateValid now2 ck.cert = false) →
        (ensureCertificate fs acme (ensureCertificate fs acme s d false now w).state
            d false now2 w2).result
          = mkSelfSignedCertKey d now2 (s.nextSerial + 1)
        ∧ (ensureCertificate fs acme (ensureCertificate fs acme s d false now w).state
            d false now2 w2).selfSignedGenerated = true) := by
  obtain h | ⟨hfsn, ⟨ck0, hck0⟩, h⟩ := ensure_unauthorized fs acme s d now w hd hc
  · rw [h]
    refine ⟨⟨rfl, rfl, rfl⟩, Or.inl rfl, ?_⟩
    intro now2 w2 hd2 hc2
    obtain h2 | ⟨_, _, h2⟩ := ensure_unauthorized fs acme (bumpSerial s) d now2 w2 hd2
      (fun ck hck => hc2 ck hck) <;> rw [h2] <;> exact ⟨rfl, rfl⟩
  · rw [h]
    refine ⟨⟨rfl, rfl, rfl⟩, Or.inr rfl, ?_⟩
    intro now2 w2 hd2 _
    have hcErased : ∀ ck, alookup d
        (bumpSerial { s with certificates := aerase d s.certificates }).certificates
          = some ck → isCertificateValid now2 ck.cert = false := by
      intro ck hck
      rw [show (bumpSerial { s with certificates := aerase d s.certificates }).certificates
          = aerase d s.certificates from rfl] at hck
      rw [alookup_aerase_self d s.certificates hnodup] at hck
      exact Option.noConfusion hck
    obtain h2 | ⟨_, _, h2⟩ := ensure_unauthorized fs acme
      (bumpSerial { s with certificates := aerase d s.certificates }) d now2 w2 hd2
      hcErased <;> rw [h2] <;> exact ⟨rfl, rfl⟩

/-- Witness for C9: the amended theorem applied to the eviction scenario of
the counterexample. -/
theorem c9_amended_witness :
    ((ensureCertificate ⟨fun _ => none, fun _ => none⟩ ⟨true, fun _ _ => none⟩
        ⟨[("h.com".toList, sampleStaleCertKey)], [], [], [], [], 0⟩
        ("h.com".toList) false 1000000000 none).result
        = mkSelfSignedCertKey ("h.com".toList) 1000000000 0
      ∧ (ensureCertificate ⟨fun _ => none, fun _ => none⟩ ⟨true, fun _ _ => none⟩
        ⟨[("h.com".toList, sampleStaleCertKey)], [], [], [], [], 0⟩
        ("h.com".toList) false 1000000000 none).acmeAttempted = false
      ∧ (ensureCertificate ⟨fun _ => none, fun _ => none⟩ ⟨true, fun _ _ => none⟩
        ⟨[("h.com".toList, sampleStaleCertKey)], [], [], [], [], 0⟩
        ("h.com".toList) false 1000000000 none).selfSignedGenerated = true)
    ∧ ((ensureCertificate ⟨fun _ => none, fun _ => none⟩ ⟨true, fun _ _ => none⟩
        ⟨[("h.com".toList, sampleStaleCertKey)], [], [], [], [], 0⟩
        ("h.com".toList) false 1000000000 none).state.certificates
          = [("h.com".toList, sampleStaleCertKey)]
      ∨ (ensureCertificate ⟨fun _ => none, fun _ => none⟩ ⟨true, fun _ _ => none⟩
        ⟨[("h.com".toList, sampleStaleCertKey)], [], [], [], [], 0⟩
        ("h.com".toList) false 1000000000 none).state.certificates
          = aerase ("h.com".toList) [("h.com".toList, sampleStaleCertKey)])
    ∧ (∀ (now2 : Int) (w2 : Option CertKey),
        (∀ dk, (⟨fun _ => none, fun _ => none⟩ : CertFS).hostCert ("h.com".toList)
            = some dk → isCertificateValid now2 dk.cert = false) →
        (∀ ck, alookup ("h.com".toList)
            ([("h.com".toList, sampleStaleCertKey)] : List (Str × CertKey)) = some ck →
          isCertificateValid now2 ck.cert = false) →
        (ensureCertificate ⟨fun _ => none, fun _ => none⟩ ⟨true, fun _ _ => none⟩
            (ensureCertificate ⟨fun _ => none, fun _ => none⟩ ⟨true, fun _ _ => none⟩
              ⟨[("h.com".toList, sampleStaleCertKey)], [], [], [], [], 0⟩
              ("h.com".toList) false 1000000000 none).state
            ("h.com".toList) false now2 w2).result
          = mkSelfSignedCertKey ("h.com".toList) now2 1
        ∧ (ensureCertificate ⟨fun _ => none, fun _ => none⟩ ⟨true, fun _ _ => none⟩
            (ensureCertificate ⟨fun _ => none, fun _ => none⟩ ⟨true, fun _ _ => none⟩
              ⟨[("h.com".toList, sampleStaleCertKey)], [], [], [], [], 0⟩
              ("h.com".toList) false 1000000000 none).state
            ("h.com".toList) false now2 w2).selfSignedGenerated = true) := by
  refine c9_amended ⟨fun _ => none, fun _ => none⟩ ⟨true, fun _ _ => none⟩
    ⟨[("h.com".toList, sampleStaleCertKey)], [], [], [], [], 0⟩
    ("h.com".toList) 1000000000 none ?_ ?_ ?_
  · intro dk hdk; exact Option.noConfusion hdk
  · intro ck hck
    have hck2 : ck = sampleStaleCertKey := by
      have h3 := hck
      rw [show alookup ("h.com".toList)
          ([("h.com".toList, sampleStaleCertKey)] : List (Str × CertKey))
          = some sampleStaleCertKey by decide] at h3
      exact (Option.some.injEq _ _ ▸ h3).symm
    rw [hck2]
    decide
  · decide

/-! ## The authorized path: rate limiting and single-flight (claims C1, C3) -/

/-- When the wildcard memory cache misses and any disk wildcard is invalid
or absent, the wildcard lookup returns nothing and leaves the state
unchanged. -/
theorem getWildcardCertificate_none (fs : CertFS) (s : CMState) (m : Str) (now : Int)
    (hw1 : alookup m s.wildcardCerts = none)
    (hw2 : ∀ wk, fs.wildcardCert m = some wk → isCertificateValid now wk.cert = false) :
    getWildcardCertificate fs s m now = (none, s) := by
  unfold getWildcardCertificate
  rw [hw1]
  cases hfw : fs.wildcardCert m with
  | none => rfl
  | some wk =>
    dsimp only
    rw [hw2 wk hfw]
    simp

/-- The wildcard lookup touches at most the wildcard cache: the
single-flight set, the rate-limiter maps and the serial counter are
untouched. -/
theorem getWildcardCertificate_frame (fs : CertFS) (s : CMState) (m : Str) (now : Int) :
    ((getWildcardCertificate fs s m now).2).lastCertRequest = s.lastCertRequest
    ∧ ((getWildcardCertificate fs s m now).2).certRequestCount = s.certRequestCount
    ∧ ((getWildcardCertificate fs s m now).2).processingDomains = s.processingDomains
    ∧ ((getWildcardCertificate fs s m now).2).nextSerial = s.nextSerial := by
  unfold getWildcardCertificate
  repeat' split
  all_goals exact ⟨rfl, rfl, rfl, rfl⟩

/-- For an authorized host — any host: when it is a strict subdomain this
requires that no wildcard material for its main domain is available — the
post-disk step is exactly the rate-limited issuance path. -/
theorem ensureAfterDiskCheck_validated_nowild (fs : CertFS) (acme : AcmeEnv)
    (s : CMState) (d : Str) (now : Int) (w : Option CertKey)
    (hw : isSubdomain d = true →
      alookup (getMainDomain d) s.wildcardCerts = none
      ∧ (∀ wk, fs.wildcardCert (getMainDomain d) = some wk →
          isCertificateValid now wk.cert = false)) :
    ensureAfterDiskCheck fs acme s d true now w
      = ensureIssueOrFallback acme s d now w := by
  cases hs : isSubdomain d with
  | false =>
    rw [ensureAfterDiskCheck, hs]
    simp [ensureNotValidatedOrIssue]
  | true =>
    obtain ⟨hw1, hw2⟩ := hw hs
    rw [ensureAfterDiskCheck, hs]
    rw [if_pos (show (true && true) = true from rfl)]
    rw [getWildcardCertificate_none fs s (getMainDomain d) now hw1 hw2]
    dsimp only
    rw [ensureNotValidatedOrIssue]
    simp

/-- Less than five minutes after the recorded last request, the issuance
path returns a fresh self-signed certificate without any other effect. -/
theorem issueOrFallback_rate (acme : AcmeEnv) (s : CMState) (d : Str)
    (now : Int) (w : Option CertKey)
    (hrate : now - (alookup d s.lastCertRequest).getD 0 < fiveMinutesMs) :
    ensureIssueOrFallback acme s d now w
      = ⟨mkSelfSignedCertKey d now s.nextSerial, bumpSerial s, false, true, []⟩ := by
  unfold ensureIssueOrFallback
  rw [if_pos hrate]

/-- At five or more recorded attempts, the issuance path returns a fresh
self-signed certificate without any other effect. -/
theorem issueOrFallback_ceiling (acme : AcmeEnv) (s : CMState) (d : Str)
    (now : Int) (w : Option CertKey)
    (hrate : ¬ (now - (alookup d s.lastCertRequest).getD 0 < fiveMinutesMs))
    (hcnt : 5 ≤ (alookup d s.certRequestCount).getD 0) :
    ensureIssueOrFallback acme s d now w
      = ⟨mkSelfSignedCertKey d now s.nextSerial, bumpSerial s, false, true, []⟩ := by
  unfold ensureIssueOrFallback
  rw [if_neg hrate, if_pos hcnt]

/-- When both rate checks pass and the host is in the processing set, the
caller waits and then returns the observed cache entry, or a fresh
self-signed certificate when the entry is still missing; it never attempts
issuance itself. -/
theorem issueOrFallback_wait (acme : AcmeEnv) (s : CMState) (d : Str)
    (now : Int) (w : Option CertKey)
    (hrate : ¬ (now - (alookup d s.lastCertRequest).getD 0 < fiveMinutesMs))
    (hcnt : ¬ (5 ≤ (alookup d s.certRequestCount).getD 0))
    (hproc : s.processingDomains.contains d = true) :
    (ensureIssueOrFallback acme s d now w).result
      = w.getD (mkSelfSignedCertKey d now s.nextSerial)
    ∧ (ensureIssueOrFallback acme s d now w).acmeAttempted = false
    ∧ (w = none → (ensureIssueOrFallback acme s d now w).selfSignedGenerated = true) := by
  unfold ensureIssueOrFallback
  rw [if_neg hrate, if_neg hcnt, if_pos hproc]
  cases w with
  | none => exact ⟨rfl, rfl, fun _ => rfl⟩
  | some c => exact ⟨rfl, rfl, fun h => Option.noConfusion h⟩

/-- Whatever the disk, cache and wildcard material hold, for any host, a
call made less than five minutes after the recorded last request never
reaches `acmeClient.auto` (a wildcard hit serves the host without
issuance; a wildcard miss falls to the rate limiter). -/
theorem afterDisk_no_attempt_of_recent (fs : CertFS) (acme : AcmeEnv)
    (s : CMState) (d : Str) (v : Bool) (now : Int) (w : Option CertKey)
    (hrate : now - (alookup d s.lastCertRequest).getD 0 < fiveMinutesMs) :
    (ensureAfterDiskCheck fs acme s d v now w).acmeAttempted = false := by
  rw [ensureAfterDiskCheck]
  split
  · split
    · rfl
    · next s1 heq =>
      have hf := getWildcardCertificate_frame fs s (getMainDomain d) now
      rw [heq] at hf
      rw [ensureNotValidatedOrIssue]
      cases v with
      | false => rfl
      | true =>
        simp only [Bool.not_true, Bool.false_eq_true, if_false]
        rw [issueOrFallback_rate acme s1 d now w (by rw [hf.1]; exact hrate)]
  · rw [ensureNotValidatedOrIssue]
    cases v with
    | false => rfl
    | true =>
      simp only [Bool.not_true, Bool.false_eq_true, if_false]
      rw [issueOrFallback_rate acme s d now w hrate]

/-- Whole-call version of the previous lemma: every path of
`ensureCertificate` either returns without issuance or is stopped by the
rate limiter. -/
theorem ensure_no_attempt_of_recent (fs : CertFS) (acme : AcmeEnv)
    (s : CMState) (d : Str) (v : Bool) (now : Int) (w : Option CertKey)
    (hrate : now - (alookup d s.lastCertRequest).getD 0 < fiveMinutesMs) :
    (ensureCertificate fs acme s d v now w).acmeAttempted = false := by
  unfold ensureCertificate
  repeat' split
  all_goals first
    | rfl
    | exact afterDisk_no_attempt_of_recent fs acme _ d v now w hrate

/-- For an authorized host with no valid disk or cache certificate, and —
when the host is a strict subdomain — no available wildcard material for
its main domain, the call reduces to the rate-limited issuance path in a
state differing at most in the certificate cache. -/
theorem ensure_reduces_validated (fs : CertFS) (acme : AcmeEnv) (s : CMState)
    (d : Str) (now : Int) (w : Option CertKey)
    (hw : isSubdomain d = true →
      alookup (getMainDomain d) s.wildcardCerts = none
      ∧ (∀ wk, fs.wildcardCert (getMainDomain d) = some wk →
          isCertificateValid now wk.cert = false))
    (hd : ∀ dk, fs.hostCert d = some dk → isCertificateValid now dk.cert = false)
    (hc : ∀ ck, alookup d s.certificates = some ck → isCertificateValid now ck.cert = false) :
    ∃ s' : CMState,
      ensureCertificate fs acme s d true now w = ensureIssueOrFallback acme s' d now w
      ∧ s'.processingDomains = s.processingDomains
      ∧ s'.lastCertRequest = s.lastCertRequest
      ∧ s'.certRequestCount = s.certRequestCount
      ∧ s'.nextSerial = s.nextSerial := by
  unfold ensureCertificate
  cases hfs : fs.hostCert d with
  | some dk =>
    refine ⟨s, ?_, rfl, rfl, rfl, rfl⟩
    dsimp only
    simp only [hd dk hfs, Bool.false_eq_true, if_false]
    exact ensureAfterDiskCheck_validated_nowild fs acme s d now w hw
  | none =>
    cases hcc : alookup d s.certificates with
    | some ck =>
      refine ⟨{ s with certificates := aerase d s.certificates }, ?_, rfl, rfl, rfl, rfl⟩
      dsimp only
      simp only [hc ck hcc, Bool.false_eq_true, if_false]
      exact ensureAfterDiskCheck_validated_nowild fs acme _ d now w hw
    | none =>
      refine ⟨s, ?_, rfl, rfl, rfl, rfl⟩
      dsimp only
      exact ensureAfterDiskCheck_validated_nowild fs acme s d now w hw

/-- The issuance branch records the call time in `lastCertRequest`
regardless of the ACME outcome. -/
theorem issueOrFallback_issue_shape (acme : AcmeEnv) (s : CMState) (d : Str)
    (now : Int) (w : Option CertKey)
    (hrate : ¬ (now - (alookup d s.lastCertRequest).getD 0 < fiveMinutesMs))
    (hcnt : ¬ (5 ≤ (alookup d s.certRequestCount).getD 0))
    (hproc : s.processingDomains.contains d = false) :
    (ensureIssueOrFallback acme s d now w).state.lastCertRequest
      = aset d now s.lastCertRequest := by
  unfold ensureIssueOrFallback
  rw [if_neg hrate, if_neg hcnt, hproc]
  simp only [Bool.false_eq_true, if_false]
  unfold obtainCertificate
  cases hav : acme.available with
  | false => rfl
  | true =>
    simp only [Bool.not_true, Bool.false_eq_true, if_false]
    cases hiss : acme.issue d now with
    | some ck =>
      dsimp only
      split <;> rfl
    | none => rfl

/-- A real (CA-signed) pair, standing for the result an in-flight issuance
would cache. -/
def sampleRealCertKey : CertKey :=
  ⟨⟨"h.com".toList, 0, 10 * oneYearMs, false, "R3".toList, 42⟩, 42⟩

/-- Claim C1 counterexample: a call made while the host is in the
processing set — less than five minutes after the in-flight attempt was
recorded — returns a FRESH self-signed certificate via the rate limiter; it
does not wait for, and does not return, the cached result of the in-flight
attempt (here the oracle says the in-flight attempt cached a real
certificate, `sampleRealCertKey`, by the time a wait would have ended). -/
theorem c1_counterexample :
    (ensureCertificate ⟨fun _ => none, fun _ => none⟩ ⟨true, fun _ _ => none⟩
        ⟨[], [], ["h.com".toList], [("h.com".toList, 1000000000)],
          [("h.com".toList, 1)], 5⟩
        ("h.com".toList) true 1000000500 (some sampleRealCertKey)).result
      ≠ sampleRealCertKey
    ∧ isRealCertificate (ensureCertificate ⟨fun _ => none, fun _ => none⟩
        ⟨true, fun _ _ => none⟩
        ⟨[], [], ["h.com".toList], [("h.com".toList, 1000000000)],
          [("h.com".toList, 1)], 5⟩
        ("h.com".toList) true 1000000500 (some sampleRealCertKey)).result.cert = false
    ∧ (ensureCertificate ⟨fun _ => none, fun _ => none⟩ ⟨true, fun _ _ => none⟩
        ⟨[], [], ["h.com".toList], [("h.com".toList, 1000000000)],
          [("h.com".toList, 1)], 5⟩
        ("h.com".toList) true 1000000500 (some sampleRealCertKey)).acmeAttempted = false
    ∧ (ensureCertificate ⟨fun _ => none, fun _ => none⟩ ⟨true, fun _ _ => none⟩
        ⟨[], [], ["h.com".toList], [("h.com".toList, 1000000000)],
          [("h.com".toList, 1)], 5⟩
        ("h.com".toList) true 1000000500 (some sampleRealCertKey)).selfSignedGenerated
        = true := by
  refine ⟨by decide, by decide, by decide, by decide⟩

/-- Claim C1 (corrected): a call for any authorized host made while the
host is already in the processing set — with no valid disk or cache
certificate and, when the host is a strict subdomain, no available
wildcard material for its main domain (a valid wildcard would serve the
host outright) — performs no issuance attempt of its own, so the in-flight
attempt stays the only one; but the caller does NOT generally receive the
cached result: because the in-flight attempt recorded its start time in
`lastCertRequest`, a later call within five minutes is stopped by the rate
limiter and immediately receives a fresh self-signed certificate.  Only
when the recorded time is at least five minutes old and fewer than five
attempts are recorded does the caller wait (up to 30 seconds) and return
the observed cache entry, or a fresh self-signed certificate when the
entry is still missing. -/
theorem c1_amended (fs : CertFS) (acme : AcmeEnv) (s : CMState) (d : Str)
    (now : Int) (w : Option CertKey)
    (hw : isSubdomain d = true →
      alookup (getMainDomain d) s.wildcardCerts = none
      ∧ (∀ wk, fs.wildcardCert (getMainDomain d) = some wk →
          isCertificateValid now wk.cert = false))
    (hproc : s.processingDomains.contains d = true)
    (hd : ∀ dk, fs.hostCert d = some dk → isCertificateValid now dk.cert = false)
    (hc : ∀ ck, alookup d s.certificates = some ck → isCertificateValid now ck.cert = false) :
    (ensureCertificate fs acme s d true now w).acmeAttempted = false
    ∧ (now - (alookup d s.lastCertRequest).getD 0 < fiveMinutesMs →
        (ensureCertificate fs acme s d true now w).result
          = mkSelfSignedCertKey d now s.nextSerial
        ∧ (ensureCertificate fs acme s d true now w).selfSignedGenerated = true)
    ∧ (¬ (now - (alookup d s.lastCertRequest).getD 0 < fiveMinutesMs) →
        5 ≤ (alookup d s.certRequestCount).getD 0 →
        (ensureCertificate fs acme s d true now w).result
          = mkSelfSignedCertKey d now s.nextSerial)
    ∧ (¬ (now - (alookup d s.lastCertRequest).getD 0 < fiveMinutesMs) →
        ¬ (5 ≤ (alookup d s.certRequestCount).getD 0) →
        (ensureCertificate fs acme s d true now w).result
          = w.getD (mkSelfSignedCertKey d now s.nextSerial)) := by
  obtain ⟨s', he, hp', hl', hcn', hs'⟩ :=
    ensure_reduces_validated fs acme s d now w hw hd hc
  by_cases hr : now - (alookup d s.lastCertRequest).getD 0 < fiveMinutesMs
  · have h1 := issueOrFallback_rate acme s' d now w (by rw [hl']; exact hr)
    rw [he, h1, hs']
    exact ⟨rfl, fun _ => ⟨rfl, rfl⟩, fun hrr _ => absurd hr hrr,
      fun hrr _ => absurd hr hrr⟩
  · by_cases hc5 : 5 ≤ (alookup d s.certRequestCount).getD 0
    · have h1 := issueOrFallback_ceiling acme s' d now w
        (by rw [hl']; exact hr) (by rw [hcn']; exact hc5)
      rw [he, h1, hs']
      exact ⟨rfl, fun hrr => absurd hrr hr, fun _ _ => rfl,
        fun _ hcc => absurd hc5 hcc⟩
    · have h1 := issueOrFallback_wait acme s' d now w
        (by rw [hl']; exact hr) (by rw [hcn']; exact hc5) (by rw [hp']; exact hproc)
      rw [he]
      refine ⟨h1.2.1, fun hrr => absurd hrr hr, fun _ hcc => absurd hcc hc5,
        fun _ _ => ?_⟩
      rw [h1.1, hs']

/-- Witness for C1: the rate-limited concurrent caller, at the strict
subdomain `api.h.com` with no wildcard material, via the amended
theorem. -/
theorem c1_amended_witness :
    (ensureCertificate ⟨fun _ => none, fun _ => none⟩ ⟨true, fun _ _ => none⟩
        ⟨[], [], ["api.h.com".toList], [("api.h.com".toList, 1000000000)],
          [("api.h.com".toList, 1)], 5⟩
        ("api.h.com".toList) true 1000000500
        (some sampleRealCertKey)).acmeAttempted = false
    ∧ (ensureCertificate ⟨fun _ => none, fun _ => none⟩ ⟨true, fun _ _ => none⟩
        ⟨[], [], ["api.h.com".toList], [("api.h.com".toList, 1000000000)],
          [("api.h.com".toList, 1)], 5⟩
        ("api.h.com".toList) true 1000000500 (some sampleRealCertKey)).result
      = mkSelfSignedCertKey ("api.h.com".toList) 1000000500 5 := by
  have h := c1_amended ⟨fun _ => none, fun _ => none⟩ ⟨true, fun _ _ => none⟩
    ⟨[], [], ["api.h.com".toList], [("api.h.com".toList, 1000000000)],
      [("api.h.com".toList, 1)], 5⟩
    ("api.h.com".toList) 1000000500 (some sampleRealCertKey)
    (fun _ => ⟨rfl, fun wk hwk => Option.noConfusion hwk⟩) (by decide)
    (fun dk hdk => Option.noConfusion hdk)
    (fun ck hck => Option.noConfusion hck)
  exact ⟨h.1, (h.2.1 (by decide)).1⟩

/-- With neither a disk pair nor a cached entry, the call proceeds directly
to the post-disk step. -/
theorem ensure_clean_reduce (fs : CertFS) (acme : AcmeEnv) (s : CMState)
    (d : Str) (v : Bool) (now : Int) (w : Option CertKey)
    (hfsd : fs.hostCert d = none)
    (hcache : alookup d s.certificates = none) :
    ensureCertificate fs acme s d v now w
      = ensureAfterDiskCheck fs acme s d v now w := by
  unfold ensureCertificate
  rw [hfsd]
  dsimp only
  rw [hcache]

/-- A filesystem with no certificates. -/
def emptyCertFS : CertFS := ⟨fun _ => none, fun _ => none⟩

/-- The manager's state at worker start. -/
def emptyCMState : CMState := ⟨[], [], [], [], [], 0⟩

/-- An ACME environment whose issuance always succeeds with a 90-day
CA-signed certificate. -/
def sampleAcmeSuccess : AcmeEnv :=
  ⟨true, fun dmn t =>
    some ⟨⟨dmn, t, t + 90 * 24 * 60 * 60 * 1000, false, "R3".toList, 1000⟩, 1000⟩⟩

/-- Claim C3 counterexample: two authorized calls 1 second apart from a
clean state, with ACME succeeding: exactly one ACME attempt is made, but
the second call returns the freshly issued REAL certificate (read back from
disk), not a self-signed one. -/
theorem c3_counterexample :
    isRealCertificate ((ensureTwice emptyCertFS sampleAcmeSuccess emptyCMState
        ("h.com".toList) 1000000000 1000001000).2.result.cert) = true
    ∧ (ensureTwice emptyCertFS sampleAcmeSuccess emptyCMState
        ("h.com".toList) 1000000000 1000001000).1.acmeAttempted = true
    ∧ (ensureTwice emptyCertFS sampleAcmeSuccess emptyCMState
        ("h.com".toList) 1000000000 1000001000).2.acmeAttempted = false := by
  refine ⟨by decide, by decide, by decide⟩

/-- Claim C3 (corrected): (i) two authorized `ensure` calls for any host
less than 5 minutes apart, starting from a state with no disk certificate,
no cache entry, no rate-limiter history and — when the host is a strict
subdomain — no available wildcard material for its main domain, perform at
most one ACME attempt in total (the second call is served from the disk or
cache result the first call left behind, or stopped by the rate limiter);
the second call returns a self-signed certificate only when the first
attempt did not produce a real certificate — when issuance succeeded the
second call returns that real certificate, as the counterexample shows.
(ii) Whenever a call finds no valid disk or cache certificate (and no
available wildcard material when the host is a strict subdomain) and
either less than 5 minutes have passed since the recorded last attempt or
5 or more attempts are recorded for the host, the call makes no ACME
attempt and returns a freshly generated self-signed certificate. -/
theorem c3_amended :
    (∀ (fs : CertFS) (acme : AcmeEnv) (s : CMState) (d : Str) (t0 t1 : Int),
      (isSubdomain d = true →
        alookup (getMainDomain d) s.wildcardCerts = none
        ∧ (∀ wk, fs.wildcardCert (getMainDomain d) = some wk →
            isCertificateValid t0 wk.cert = false)) →
      fs.hostCert d = none →
      alookup d s.certificates = none →
      s.processingDomains.contains d = false →
      alookup d s.lastCertRequest = none →
      alookup d s.certRequestCount = none →
      t1 - t0 < fiveMinutesMs →
      ¬ ((ensureTwice fs acme s d t0 t1).1.acmeAttempted = true
         ∧ (ensureTwice fs acme s d t0 t1).2.acmeAttempted = true))
    ∧ (∀ (fs : CertFS) (acme : AcmeEnv) (s : CMState) (d : Str) (now : Int)
        (w : Option CertKey),
      (isSubdomain d = true →
        alookup (getMainDomain d) s.wildcardCerts = none
        ∧ (∀ wk, fs.wildcardCert (getMainDomain d) = some wk →
            isCertificateValid now wk.cert = false)) →
      (∀ dk, fs.hostCert d = some dk → isCertificateValid now dk.cert = false) →
      (∀ ck, alookup d s.certificates = some ck →
        isCertificateValid now ck.cert = false) →
      (now - (alookup d s.lastCertRequest).getD 0 < fiveMinutesMs
        ∨ 5 ≤ (alookup d s.certRequestCount).getD 0) →
      (ensureCertificate fs acme s d true now w).acmeAttempted = false
      ∧ (ensureCertificate fs acme s d true now w).selfSignedGenerated = true
      ∧ (ensureCertificate fs acme s d true now w).result
          = mkSelfSignedCertKey d now s.nextSerial) := by
  constructor
  · intro fs acme s d t0 t1 hwild hfsd hcache hproc hlast hcnt hlt
    rintro ⟨ha1, ha2⟩
    have he1 : ensureCertificate fs acme s d true t0 none
        = ensureIssueOrFallback acme s d t0 none := by
      rw [ensure_clean_reduce fs acme s d true t0 none hfsd hcache]
      exact ensureAfterDiskCheck_validated_nowild fs acme s d t0 none hwild
    by_cases hr0 : t0 - (alookup d s.lastCertRequest).getD 0 < fiveMinutesMs
    · have hre := issueOrFallback_rate acme s d t0 none hr0
      rw [show (ensureTwice fs acme s d t0 t1).1
          = ensureCertificate fs acme s d true t0 none from rfl, he1, hre] at ha1
      exact Bool.noConfusion ha1
    · by_cases hc5 : 5 ≤ (alookup d s.certRequestCount).getD 0
      · rw [hcnt] at hc5
        simp at hc5
      · have hshape := issueOrFallback_issue_shape acme s d t0 none hr0 hc5 hproc
        have ha2' : (ensureTwice fs acme s d t0 t1).2.acmeAttempted = false := by
          rw [show (ensureTwice fs acme s d t0 t1).2
              = ensureCertificate (applyDiskWrites fs
                  (ensureCertificate fs acme s d true t0 none).diskWrites) acme
                  (ensureCertificate fs acme s d true t0 none).state d true t1 none
              from rfl]
          apply ensure_no_attempt_of_recent _ acme _ d true t1 none
          rw [he1, hshape, alookup_aset_self]
          simpa using hlt
        rw [ha2'] at ha2
        exact Bool.noConfusion ha2
  · intro fs acme s d now w hwild hd hc hdisj
    obtain ⟨s', he, hp', hl', hcn', hs'⟩ :=
      ensure_reduces_validated fs acme s d now w hwild hd hc
    by_cases hr : now - (alookup d s.lastCertRequest).getD 0 < fiveMinutesMs
    · have h1 := issueOrFallback_rate acme s' d now w (by rw [hl']; exact hr)
      rw [he, h1, hs']
      exact ⟨rfl, rfl, rfl⟩
    · have hc5 : 5 ≤ (alookup d s.certRequestCount).getD 0 := by tauto
      have h1 := issueOrFallback_ceiling acme s' d now w
        (by rw [hl']; exact hr) (by rw [hcn']; exact hc5)
      rw [he, h1, hs']
      exact ⟨rfl, rfl, rfl⟩

/-- Witness for C3: part (i) at a two-call run for the strict subdomain
`api.h.com` with no wildcard material, and part (ii) at a state whose last
attempt for that host was 500 ms earlier. -/
theorem c3_amended_witness :
    (¬ ((ensureTwice emptyCertFS sampleAcmeSuccess emptyCMState
          ("api.h.com".toList) 1000000000 1000001000).1.acmeAttempted = true
        ∧ (ensureTwice emptyCertFS sampleAcmeSuccess emptyCMState
          ("api.h.com".toList) 1000000000 1000001000).2.acmeAttempted = true))
    ∧ ((ensureCertificate emptyCertFS sampleAcmeSuccess
          ⟨[], [], [], [("api.h.com".toList, 1000000000)], [], 9⟩
          ("api.h.com".toList) true 1000000500 none).acmeAttempted = false
      ∧ (ensureCertificate emptyCertFS sampleAcmeSuccess
          ⟨[], [], [], [("api.h.com".toList, 1000000000)], [], 9⟩
          ("api.h.com".toList) true 1000000500 none).selfSignedGenerated = true
      ∧ (ensureCertificate emptyCertFS sampleAcmeSuccess
          ⟨[], [], [], [("api.h.com".toList, 1000000000)], [], 9⟩
          ("api.h.com".toList) true 1000000500 none).result
        = mkSelfSignedCertKey ("api.h.com".toList) 1000000500 9) := by
  constructor
  · exact c3_amended.1 emptyCertFS sampleAcmeSuccess emptyCMState
      ("api.h.com".toList) 1000000000 1000001000
      (fun _ => ⟨rfl, fun wk hwk => Option.noConfusion hwk⟩)
      rfl rfl rfl rfl rfl (by decide)
  · exact c3_amended.2 emptyCertFS sampleAcmeSuccess
      ⟨[], [], [], [("api.h.com".toList, 1000000000)], [], 9⟩
      ("api.h.com".toList) 1000000500 none
      (fun _ => ⟨rfl, fun wk hwk => Option.noConfusion hwk⟩)
      (fun dk hdk => Option.noConfusion hdk)
      (fun ck hck => Option.noConfusion hck)
      (Or.inl (by decide))

/-! ## Worker supervisor (src/index.js, lines 26-44; claim C8)

Cluster worker handles (`worker.id`) are modelled as naturals handed out
by a counter; `workerIds` is the master's `Map` from handle to the stable
`WORKER_ID`; `live` is the set of currently forked workers. -/

structure SupState where
  nextHandle : Nat
  workerIds : List (Nat × Nat)
  live : List Nat
deriving DecidableEq

/-- Embeds one `cluster.fork({ WORKER_ID: wid }) ; workerIds.set(worker.id,
wid)` step. -/
def forkWorker (wid : Nat) (s : SupState) : SupState :=
  ⟨s.nextHandle + 1, aset s.nextHandle wid s.workerIds, s.nextHandle :: s.live⟩

/-- Embeds the master's startup loop:
`for (i = 0; i < min(numCPUs, 4); i++) fork({ WORKER_ID: i })`. -/
def initSupervisor (cpus : Nat) : SupState :=
  (List.range (min cpus 4)).foldl (fun s i => forkWorker i s) ⟨0, [], []⟩

/-- Embeds the `cluster.on('exit')` handler (lines 37-44): read
`workerIds.get(worker.id) || 0`, drop the dead worker, fork a replacement
carrying the same `WORKER_ID`.  The runtime only delivers exit events for
live workers; a stray handle leaves the state unchanged. -/
def onWorkerExit (s : SupState) (w : Nat) : SupState :=
  if s.live.contains w then
    forkWorker ((alookup w s.workerIds).getD 0)
      ⟨s.nextHandle, aerase w s.workerIds, s.live.erase w⟩
  else s

/-- A sequence of worker exits processed in order. -/
def runExits (s : SupState) : List Nat → SupState
  | [] => s
  | w :: ws => runExits (onWorkerExit s w) ws

/-- The `WORKER_ID`s of the currently live workers. -/
def liveWorkerIds (s : SupState) : List Nat :=
  s.live.map (fun w => (alookup w s.workerIds).getD 0)

/-- The supervisor invariant: live handles are distinct and below the
counter, and the live `WORKER_ID`s are exactly `0, …, n-1`. -/
def SupInv (n : Nat) (s : SupState) : Prop :=
  s.live.Nodup ∧ (∀ w ∈ s.live, w < s.nextHandle)
    ∧ (liveWorkerIds s).Perm (List.range n)

/-- Forking a fresh handle prepends its `WORKER_ID` and leaves the other
live workers' ids unchanged. -/
theorem liveWorkerIds_forkWorker (wid : Nat) (s : SupState)
    (hfresh : ∀ w ∈ s.live, w < s.nextHandle) :
    liveWorkerIds (forkWorker wid s) = wid :: liveWorkerIds s := by
  unfold liveWorkerIds forkWorker
  dsimp only
  simp only [List.map_cons]
  rw [alookup_aset_self]
  refine congrArg (_ :: ·) ?_
  refine List.map_congr_left ?_
  intro x hx
  rw [alookup_aset_ne s.nextHandle x wid (Nat.ne_of_lt (hfresh x hx)) s.workerIds]

theorem supInv_init (n : Nat) :
    SupInv n ((List.range n).foldl (fun s i => forkWorker i s) ⟨0, [], []⟩) := by
  induction n with
  | zero => exact ⟨List.nodup_nil, by simp, by simp [liveWorkerIds]⟩
  | succ k ih =>
    rw [List.range_succ, List.foldl_append, List.foldl_cons, List.foldl_nil]
    obtain ⟨hnd, hfresh, hperm⟩ := ih
    refine ⟨?_, ?_, ?_⟩
    · exact List.nodup_cons.mpr
        ⟨fun hmem => absurd (hfresh _ hmem) (lt_irrefl _), hnd⟩
    · intro w hw
      rcases List.mem_cons.mp hw with rfl | hw2
      · exact Nat.lt_succ_self _
      · exact Nat.lt_succ_of_lt (hfresh w hw2)
    · rw [liveWorkerIds_forkWorker k _ hfresh]
      refine (hperm.cons k).trans ?_
      rw [List.range_succ]
      exact (List.perm_append_singleton k _).symm

theorem supInv_onWorkerExit (n : Nat) (s : SupState) (w : Nat) (h : SupInv n s) :
    SupInv n (onWorkerExit s w) := by
  obtain ⟨hnd, hfresh, hperm⟩ := h
  unfold onWorkerExit
  by_cases hw : s.live.contains w = true
  · rw [if_pos hw]
    have hwmem : w ∈ s.live := by simpa using hw
    have hfresh1 : ∀ x ∈ s.live.erase w, x < s.nextHandle :=
      fun x hx => hfresh x (List.mem_of_mem_erase hx)
    have hlive1 : liveWorkerIds ⟨s.nextHandle, aerase w s.workerIds, s.live.erase w⟩
        = (s.live.erase w).map (fun x => (alookup x s.workerIds).getD 0) := by
      unfold liveWorkerIds
      refine List.map_congr_left ?_
      intro x hx
      rw [alookup_aerase_ne w x ((List.Nodup.mem_erase_iff hnd).mp hx).1 s.workerIds]
    refine ⟨?_, ?_, ?_⟩
    · exact List.nodup_cons.mpr
        ⟨fun hmem => absurd (hfresh1 _ hmem) (lt_irrefl _), hnd.erase w⟩
    · intro x hx
      rcases List.mem_cons.mp hx with rfl | hx2
      · exact Nat.lt_succ_self _
      · exact Nat.lt_succ_of_lt (hfresh1 x hx2)
    · rw [liveWorkerIds_forkWorker _ _ hfresh1, hlive1]
      have hstep : ((alookup w s.workerIds).getD 0
            :: (s.live.erase w).map (fun x => (alookup x s.workerIds).getD 0)).Perm
          (liveWorkerIds s) := by
        unfold liveWorkerIds
        exact ((List.perm_cons_erase hwmem).map
          (fun x => (alookup x s.workerIds).getD 0)).symm
      exact hstep.trans hperm
  · rw [if_neg hw]
    exact ⟨hnd, hfresh, hperm⟩

theorem supInv_runExits (n : Nat) (s : SupState) (exits : List Nat)
    (h : SupInv n s) : SupInv n (runExits s exits) := by
  induction exits generalizing s with
  | nil => exact h
  | cons w ws ih => exact ih _ (supInv_onWorkerExit n s w h)

/-- Claim C8 (confirmed): the supervisor forks `min(cpus, 4)` workers whose
`WORKER_ID`s are exactly `0, …, N-1`; after any sequence of worker exits
the live `WORKER_ID`s are still exactly `0, …, N-1` with `N` live workers;
and each respawned worker is registered under precisely the `WORKER_ID` of
the worker that exited. -/
theorem c8_supervisor (cpus : Nat) (exits : List Nat) :
    (liveWorkerIds (initSupervisor cpus)).Perm (List.range (min cpus 4))
    ∧ (initSupervisor cpus).live.length = min cpus 4
    ∧ (liveWorkerIds (runExits (initSupervisor cpus) exits)).Perm
        (List.range (min cpus 4))
    ∧ (runExits (initSupervisor cpus) exits).live.length = min cpus 4
    ∧ (∀ (s : SupState) (w : Nat), s.live.contains w = true →
        alookup s.nextHandle (onWorkerExit s w).workerIds
          = some ((alookup w s.workerIds).getD 0)) := by
  have h0 := supInv_init (min cpus 4)
  have h1 := supInv_runExits (min cpus 4) _ exits h0
  refine ⟨h0.2.2, ?_, h1.2.2, ?_, ?_⟩
  · have hl := h0.2.2.length_eq
    rw [List.length_range] at hl
    simpa [liveWorkerIds] using hl
  · have hl := h1.2.2.length_eq
    rw [List.length_range] at hl
    simpa [liveWorkerIds] using hl
  · intro s w hw
    unfold onWorkerExit
    rw [if_pos hw]
    unfold forkWorker
    dsimp only
    exact alookup_aset_self _ _ _

/-- Witness for C8: eight CPUs (so four workers), three exits, and the
respawn-id conjunct applied to the exit of worker handle 1. -/
theorem c8_supervisor_witness :
    (liveWorkerIds (runExits (initSupervisor 8) [1, 4, 0])).Perm
        (List.range (min 8 4))
    ∧ alookup (initSupervisor 8).nextHandle
        (onWorkerExit (initSupervisor 8) 1).workerIds
      = some ((alookup 1 (initSupervisor 8).workerIds).getD 0) := by
  have h := c8_supervisor 8 [1, 4, 0]
  exact ⟨h.2.2.1, h.2.2.2.2 (initSupervisor 8) 1 (by decide)⟩

end JsProxy
